import Mathlib

/-!
Verification development for the AI-Vtuber response pipeline
(`src/main.py`).  The Python source is shallowly embedded: strings are
`List Char`, the three `re.sub` passes of `AIVtuber._clean_response`
become executable recursive functions, the retrying generation call
`AIVtuber._call_deepseek_api` becomes a function over an oracle giving
each attempt's outcome, `ResponseCache` becomes an insertion-ordered
association list, the per-message orchestration (`process_chat`'s inner
`process_message`) becomes a state transformer plus an interleaving
semantics for the `asyncio.Lock`, and `AudioPlayer.stop`'s interaction
with the consumer thread becomes a small transition system.
-/

/-- Whitespace as matched by Python's `\s` / `str.strip()` / `str.split()`
on the ASCII range: space, tab, newline, carriage return, vertical tab,
form feed. -/
def isSpace (c : Char) : Bool :=
  c == ' ' || c == '\t' || c == '\n' || c == '\r' || c.toNat == 11 || c.toNat == 12

/-- Sentence-ending punctuation of the split pattern `(?<=[.!?])\s+`
in `_clean_response` (src/main.py:117). -/
def sentEnd (c : Char) : Bool :=
  c == '.' || c == '!' || c == '?'

/-- Step 1 of `_clean_response` (src/main.py:111):
`re.sub(r'[\U00010000-\U0010FFFF]', '', text)` — drop every character
outside the basic multilingual plane. -/
def removeAstral (l : List Char) : List Char :=
  l.filter (fun c => c.toNat < 65536)

/-- Helper for the `\*[^*]*\*` pass: drop characters up to and including
the next `*`; `none` when the list contains no `*` (so the pattern has no
match starting at the preceding `*`). -/
def dropAfterStar : List Char → Option (List Char)
  | [] => none
  | c :: rest => if c = '*' then some rest else dropAfterStar rest

/-- Step 2 of `_clean_response` (src/main.py:112):
`re.sub(r'\*[^*]*\*', '', text)` — repeatedly delete the leftmost
asterisk-delimited span.  Fuel-indexed so the recursion is structural;
`removeStars` supplies adequate fuel (each span removal consumes at least
two characters of the list). -/
def removeStarsF : Nat → List Char → List Char
  | 0, l => l
  | _ + 1, [] => []
  | f + 1, c :: rest =>
    if c = '*' then
      match dropAfterStar rest with
      | some rest2 => removeStarsF f rest2
      | none => c :: rest
    else c :: removeStarsF f rest

/-- The `\*[^*]*\*` substitution of src/main.py:112. -/
def removeStars (l : List Char) : List Char :=
  removeStarsF l.length l

/-- After the first `:` of the line, the pattern `^[^:]+:\s+` requires at
least one whitespace character and then greedily consumes the whole run;
returns the remainder, or `none` when no whitespace follows the colon (in
which case the whole pattern cannot match, since `[^:]+` cannot cross the
first colon). -/
def afterColon : List Char → Option (List Char)
  | [] => none
  | d :: rest2 => if isSpace d then some (rest2.dropWhile isSpace) else none

/-- Scan for the first `:` (the characters before it are the `[^:]+`
part). -/
def scanColon : List Char → Option (List Char)
  | [] => none
  | c :: rest => if c = ':' then afterColon rest else scanColon rest

/-- Step 3 of `_clean_response` (src/main.py:113):
`re.sub(r'^[^:]+:\s+', '', text)`.  `some r` means the anchored pattern
matches and `r` is what remains; `none` means no match (the line starts
with `:` , has no colon, or no whitespace follows its first colon). -/
def speakerHit : List Char → Option (List Char)
  | [] => none
  | c :: rest => if c = ':' then none else scanColon rest

/-- Apply the `^[^:]+:\s+` substitution. -/
def stripSpeaker (l : List Char) : List Char :=
  (speakerHit l).getD l

/-- Leading-whitespace strip. -/
def stripL (l : List Char) : List Char :=
  l.dropWhile isSpace

/-- Trailing-whitespace strip. -/
def stripR (l : List Char) : List Char :=
  (l.reverse.dropWhile isSpace).reverse

/-- Step 4 of `_clean_response` (src/main.py:114): Python `str.strip()`. -/
def stripWs (l : List Char) : List Char :=
  stripR (stripL l)

/-- Step 5a of `_clean_response` (src/main.py:117):
`re.split(r'(?<=[.!?])\s+', text)`.  One character is consumed per unit
of fuel; the flag records whether we are inside the whitespace run that
follows a sentence break (that run is consumed by the split and belongs
to no sentence). -/
def splitFuel : Nat → Bool → List Char → List Char → List (List Char)
  | 0, _, cur, rest => [cur.reverse ++ rest]
  | _ + 1, _, cur, [] => [cur.reverse]
  | f + 1, skip, cur, c :: rest =>
    if skip && isSpace c then
      splitFuel f true cur rest
    else if sentEnd c && (match rest with | d :: _ => isSpace d | [] => false) then
      (cur.reverse ++ [c]) :: splitFuel f true [] rest
    else
      splitFuel f false (c :: cur) rest

/-- The sentence split of src/main.py:117. -/
def splitSentences (l : List Char) : List (List Char) :=
  splitFuel l.length false [] l

/-- Step 5b of `_clean_response` (src/main.py:118-123): greedily append
whole sentences (each followed by a space, as `result += sentence + " "`)
while `len(result + sentence) <= max_response_length`, stopping at the
first sentence that does not fit. -/
def takeSentences (m : Nat) : List (List Char) → List Char → List Char
  | [], acc => acc
  | s :: ss, acc =>
    if acc.length + s.length ≤ m then takeSentences m ss (acc ++ s ++ [' '])
    else acc

/-- Steps 1-4 of `_clean_response`: the text before the length check. -/
def cleanCore (x : List Char) : List Char :=
  stripWs (stripSpeaker (removeStars (removeAstral x)))

/-- `AIVtuber._clean_response` (src/main.py:109-126), with
`m = config["api_settings"]["max_response_length"]`. -/
def clean_response (m : Nat) (x : List Char) : List Char :=
  if m < (cleanCore x).length then
    stripWs (takeSentences m (splitSentences (cleanCore x)) [])
  else cleanCore x

/-- Apostrophe character, built numerically. -/
def apChar : Char := Char.ofNat 39

/-- The fixed degraded-fallback reply of `_call_deepseek_api`
(src/main.py:201). -/
def apology : List Char :=
  "I apologize, but I".toList ++ [apChar] ++
    "m having trouble connecting to my thoughts right now. Perhaps we could try again in a moment?".toList

/-- The input of the spec's sanitizer example (section 8):
`"Nova: *giggles* I'm *so* happy to see you! Extra sentence overflow here."` -/
def c5Input : List Char :=
  "Nova: *giggles* I".toList ++ [apChar] ++
    "m *so* happy to see you! Extra sentence overflow here.".toList

/-- The output the spec's example claims: `"I'm happy to see you!"`
(single space between the words). -/
def c5SpecOut : List Char :=
  "I".toList ++ [apChar] ++ "m happy to see you!".toList

/-- The output the code actually produces: `"I'm  happy to see you!"` —
deleting the `*so*` span leaves both of its flanking spaces. -/
def c5CodeOut : List Char :=
  "I".toList ++ [apChar] ++ "m  happy to see you!".toList

/-! ## ResponseCache (src/main.py:61-83) -/

/-- `s.lower()` of src/main.py:68-69 (ASCII case folding). -/
def lowerList (l : List Char) : List Char :=
  l.map Char.toLower

/-- Worker for Python `str.split()`: split on whitespace runs, dropping
empty tokens; `cur` carries the current word reversed. -/
def splitWsGo (cur : List Char) : List Char → List (List Char)
  | [] => if cur.isEmpty then [] else [cur.reverse]
  | c :: rest =>
    if isSpace c then
      if cur.isEmpty then splitWsGo [] rest
      else cur.reverse :: splitWsGo [] rest
    else splitWsGo (c :: cur) rest

/-- Python `str.split()` with no argument. -/
def splitWs (l : List Char) : List (List Char) :=
  splitWsGo [] l

/-- The word set `set(s.lower().split())` of
`ResponseCache._compute_similarity` (src/main.py:68-69), as a
duplicate-free list. -/
def wordsOf (l : List Char) : List (List Char) :=
  (splitWs (lowerList l)).dedup

/-- `ResponseCache._compute_similarity` (src/main.py:67-72):
`|A ∩ B| / |A ∪ B|` over the two word sets, and `0` when the union is
empty (the `if union > 0 else 0` guard). -/
def simScore (a b : List Char) : ℚ :=
  let A := wordsOf a
  let B := wordsOf b
  let inter := (A.filter (fun w => decide (w ∈ B))).length
  let union := (A ++ B.filter (fun w => decide (w ∉ A))).length
  if 0 < union then (inter : ℚ) / (union : ℚ) else 0

/-- A cache state: insertion-ordered `(query, response)` entries, the
embedding of the Python dict `self.cache` (oldest first). -/
abbrev CacheSt := List (List Char × List Char)

/-- `ResponseCache.get` (src/main.py:74-78): first entry in insertion
order whose similarity with the query strictly exceeds the threshold. -/
def cacheGet (thr : ℚ) (st : CacheSt) (q : List Char) : Option (List Char) :=
  match st with
  | [] => none
  | (k, v) :: rest => if thr < simScore q k then some v else cacheGet thr rest q

/-- Python dict assignment `self.cache[query] = response`: update in
place when the key exists (keeping its position), append otherwise. -/
def insertKV (st : CacheSt) (q r : List Char) : CacheSt :=
  if q ∈ st.map Prod.fst then
    st.map (fun e => if e.fst = q then (q, r) else e)
  else st ++ [(q, r)]

/-- `ResponseCache.add` (src/main.py:80-83): when at capacity, pop the
first-inserted key, then assign.  `none` embeds the `StopIteration` that
`next(iter(self.cache))` raises on an empty dict (only possible when
`cache_size = 0`). -/
def cacheAdd (size : Nat) (st : CacheSt) (q r : List Char) : Option CacheSt :=
  if size ≤ st.length then
    match st with
    | [] => none
    | _ :: tail => some (insertKV tail q r)
  else some (insertKV st q r)

/-- Run a sequence of `add` operations, stopping on a raise. -/
def runAdds (size : Nat) (st : CacheSt) : List (List Char × List Char) → Option CacheSt
  | [] => some st
  | (q, r) :: ops =>
    match cacheAdd size st q r with
    | some st2 => runAdds size st2 ops
    | none => none

/-! ## GenerationClient: `AIVtuber._call_deepseek_api` (src/main.py:128-201) -/

/-- Outcome of one HTTP attempt, as seen by the retry loop: a 200
response with a message body, a non-200 status, or a
connect/read timeout. -/
inductive AttemptResult
  | ok (body : List Char)
  | httpErr (code : Nat)
  | timedOut
deriving DecidableEq

/-- One `self.tracking.track_error(...)` emission of
`_call_deepseek_api`: per-attempt HTTP error (line 186), per-attempt
timeout (line 192), or the terminal `"API call failed after n attempts"`
message of the outer handler (line 200). -/
inductive ErrEvent
  | httpError (attempt code : Nat)
  | timeoutError (attempt : Nat)
  | finalFailure
deriving DecidableEq

/-- `max_retries = 3` (src/main.py:167). -/
def maxRetries : Nat := 3

/-- The `for attempt in range(max_retries)` loop (src/main.py:168-196)
from attempt `i`, with fuel for structural recursion (`maxRetries`
suffices).  Returns the error notifications emitted inside the loop and
`some cleaned` on a 200 (note line 183: the success body passes through
`_clean_response`), or `none` when the final attempt raises. -/
def runAttempts (m : Nat) (o : Nat → AttemptResult) : Nat → Nat → List ErrEvent × Option (List Char)
  | _, 0 => ([], none)
  | i, f + 1 =>
    match o i with
    | .ok body => ([], some (clean_response m body))
    | .httpErr code =>
      if i = maxRetries - 1 then ([.httpError i code], none)
      else
        let r := runAttempts m o (i + 1) f
        (.httpError i code :: r.1, r.2)
    | .timedOut =>
      if i = maxRetries - 1 then ([.timeoutError i], none)
      else
        let r := runAttempts m o (i + 1) f
        (.timeoutError i :: r.1, r.2)

/-- `AIVtuber._call_deepseek_api` (src/main.py:128-201): run the retry
loop; if it raises, the outer `except` emits one more error notification
and returns the fixed apology string (line 198-201).  The embedding is
total: no exception reaches the caller. -/
def callDeepseekApi (m : Nat) (o : Nat → AttemptResult) : List Char × List ErrEvent :=
  match runAttempts m o 0 maxRetries with
  | (errs, some resp) => (resp, errs)
  | (errs, none) => (apology, errs ++ [.finalFailure])

/-! ## Orchestrator state per message (`process_message`, src/main.py:226-253) -/

/-- The mutable state `process_message` touches: the response cache
(`self.response_cache`), the subtitle file `output.txt`, and
`self.last_response_time`. -/
structure OrchState where
  cache : CacheSt
  subtitle : List Char
  lastResponseTime : ℚ
deriving DecidableEq

/-- Result of one `process_message` run. -/
structure MsgOutcome where
  state : OrchState
  genCalls : Nat
  spoke : Bool
deriving DecidableEq

/-- Embedded from `process_chat`'s inner `process_message`
(src/main.py:226-253).  Inside the lock it rate-waits, calls
`_call_deepseek_api` (unconditionally — the body contains no call to
`self.response_cache.get` or `.add`, so the cache is passed through
untouched), writes the subtitle and runs TTS when the response is
non-empty, and finally sets `last_response_time` to the completion time
`tEnd`.  `genCalls` counts the generation calls made (always the one at
line 238). -/
def processMessage (m : Nat) (o : Nat → AttemptResult) (st : OrchState)
    (_message : List Char) (tEnd : ℚ) : MsgOutcome :=
  let resp := (callDeepseekApi m o).1
  if resp.isEmpty then
    { state := { cache := st.cache, subtitle := st.subtitle, lastResponseTime := tEnd }
      genCalls := 1, spoke := false }
  else
    { state := { cache := st.cache, subtitle := resp, lastResponseTime := tEnd }
      genCalls := 1, spoke := true }

/-! ## Rate-limit gate timing (src/main.py:228-231, 250) -/

/-- The moment a task proceeds past the rate-limit check, given the
configured delay `d`, the stored `last_response_time` `last`, and the
time `arrive` at which `current_time = time.time()` is read inside the
lock: if `current_time - last < delay` the task sleeps
`delay - (current_time - last)` (src/main.py:230-231), otherwise it
proceeds immediately. -/
def gatePass (d last arrive : ℚ) : ℚ :=
  if arrive - last < d then arrive + (d - (arrive - last)) else arrive

/-! ## Lock-interleaving semantics of two concurrent `process_message` tasks -/

/-- The atomic steps of one `process_message` task, in source order
(src/main.py:226-253): acquire `self.processing_lock`, the rate-limit
check/sleep, the `_call_deepseek_api` await, `_write_subtitle`, the
synthesis span inside `_text_to_speech_async` (start and end of the
executor call, src/main.py:203-217), `audio_player.play` enqueue, the
`last_response_time` store, and the lock release at the end of the
`async with` block. -/
inductive PStep
  | lockAcquire
  | gateCheck
  | apiCall
  | subtitleWrite
  | synthStart
  | synthEnd
  | audioEnqueue
  | setLastTime
  | lockRelease
deriving DecidableEq

/-- The step sequence of one task, as written in the source. -/
def taskSteps : List PStep :=
  [.lockAcquire, .gateCheck, .apiCall, .subtitleWrite, .synthStart,
   .synthEnd, .audioEnqueue, .setLastTime, .lockRelease]

/-- A schedule interleaves the events of two tasks (identified by a
`Bool`). -/
abbrev Schedule := List (Bool × PStep)

/-- Events of one task, in schedule order. -/
def projTask (t : Bool) (s : Schedule) : List PStep :=
  (s.filter (fun e => e.fst = t)).map Prod.snd

/-- One step of the `asyncio.Lock` discipline: while a task owns the
lock no event of the other task can occur (every modeled step of
`process_message` lies inside the `async with` block; a task's acquire
completes only when the lock is free). `none` marks an impossible
schedule. -/
def lockStep : Option (Option Bool) → Bool × PStep → Option (Option Bool)
  | none, _ => none
  | some owner, (t, st) =>
    match owner with
    | some o =>
      if t = o then some (if st = PStep.lockRelease then none else some o)
      else none
    | none => if st = PStep.lockAcquire then some (some t) else none

/-- Walk a schedule under the lock discipline, starting from a free
lock. -/
def lockRun (s : Schedule) : Option (Option Bool) :=
  s.foldl lockStep (some none)

/-- A schedule is a possible execution of two concurrent
`process_message` tasks: each task performs exactly its step sequence,
and the lock discipline is respected throughout. -/
def ValidSchedule (s : Schedule) : Prop :=
  projTask false s = taskSteps ∧ projTask true s = taskSteps ∧ (lockRun s).isSome

/-! ## AudioPlayer shutdown (src/main.py:20-59) -/

/-- Where the consumer thread (`_audio_player_loop`, src/main.py:31-47)
is: about to test `while not self.should_stop`, inside
`sd.play`/`sd.wait`, or exited. -/
inductive CPhase
  | loopHead
  | playing
  | exited
deriving DecidableEq

/-- Joint state of the audio queue (`queue.Queue(maxsize=10)`,
src/main.py:21-22), the consumer thread, and the `stop()` caller's
blocking `self.audio_queue.put(None)` (src/main.py:57). -/
structure SinkState where
  qsize : Nat
  phase : CPhase
  stopFlag : Bool
  putWaiting : Bool
  putDone : Bool
deriving DecidableEq

/-- `maxsize=10` of the audio queue (src/main.py:21). -/
def sinkCap : Nat := 10

/-- Transitions of the shutdown scenario: the consumer exits when it
sees `should_stop` (line 32), takes an item and plays it otherwise
(lines 34-41), spins on `queue.Empty` (line 43-44), finishes a playback,
and `stop()`'s blocking `put(None)` completes only when the queue has
room. -/
inductive SinkStep : SinkState → SinkState → Prop
  | exitLoop (s : SinkState) (h1 : s.phase = CPhase.loopHead) (h2 : s.stopFlag = true) :
      SinkStep s { s with phase := CPhase.exited }
  | getItem (s : SinkState) (h1 : s.phase = CPhase.loopHead) (h2 : s.stopFlag = false)
      (h3 : 0 < s.qsize) :
      SinkStep s { s with qsize := s.qsize - 1, phase := CPhase.playing }
  | getTimeout (s : SinkState) (h1 : s.phase = CPhase.loopHead) (h2 : s.stopFlag = false)
      (h3 : s.qsize = 0) :
      SinkStep s s
  | playDone (s : SinkState) (h1 : s.phase = CPhase.playing) :
      SinkStep s { s with phase := CPhase.loopHead }
  | putOk (s : SinkState) (h1 : s.putWaiting = true) (h2 : s.qsize < sinkCap) :
      SinkStep s { s with qsize := s.qsize + 1, putWaiting := false, putDone := true }

/-- Reflexive-transitive closure of `SinkStep`. -/
inductive SinkReach (s0 : SinkState) : SinkState → Prop
  | refl : SinkReach s0 s0
  | step {s t : SinkState} : SinkReach s0 s → SinkStep s t → SinkReach s0 t

/-- The failing configuration for `stop()`: the audio queue is full
(10 buffers), the consumer is mid-playback, `should_stop` has just been
set and `stop()` is blocked inside `put(None)`. -/
def stuckInit : SinkState :=
  { qsize := 10, phase := CPhase.playing, stopFlag := true,
    putWaiting := true, putDone := false }

/-- A cache state that holds an entry identical to the incoming
message. -/
def c1Cache : CacheSt := [("hello".toList, "hi there".toList)]

/-- The invariant `ResponseCache.add` maintains. -/
def CacheInv (size : Nat) (st : CacheSt) : Prop :=
  st.length ≤ size ∧ (st.map Prod.fst).Nodup

/-! ## Claim C4: rate-limit gate timing -/

/-- A task that enters the lock at `arrive` with stored completion time
`last` proceeds past the gate no earlier than `last + d`. -/
theorem gatePass_lower (d last arrive : ℚ) :
    last + d ≤ gatePass d last arrive := by
  unfold gatePass
  split
  · linarith
  · next hlt => push_neg at hlt; linarith

/-- Claim C4: with configured delay `d`, if the first task passes the
gate at `g1 = gatePass d l0 a1`, completes at `c1 ≥ g1` (storing `c1`
into `last_response_time`, src/main.py:250), and the second task
acquires the lock at `a2 ≥ c1` (the lock is released only after the
store), then the second task passes the gate at
`g2 = gatePass d c1 a2 ≥ c1 + d`; in particular the gap between the two
gate-passing instants is at least `d`. -/
theorem c4_gate_gap (d l0 a1 c1 a2 g1 g2 : ℚ)
    (_hg1 : g1 = gatePass d l0 a1) (hc1 : g1 ≤ c1) (_ha2 : c1 ≤ a2)
    (hg2 : g2 = gatePass d c1 a2) :
    c1 + d ≤ g2 ∧ d ≤ g2 - g1 := by
  have key : c1 + d ≤ g2 := by rw [hg2]; exact gatePass_lower d c1 a2
  exact ⟨key, by linarith⟩

/-- Concrete instance of C4: `d = 1`, first task passes the gate at
time 1 and completes at time 2, second task arrives at time 2 and passes
at time 3. -/
theorem c4_gate_gap_witness :
    (2 : ℚ) + 1 ≤ gatePass 1 2 2 ∧ (1 : ℚ) ≤ gatePass 1 2 2 - gatePass 1 0 0 :=
  c4_gate_gap 1 0 0 2 2 (gatePass 1 0 0) (gatePass 1 2 2) rfl
    (by norm_num [gatePass]) (by norm_num) rfl

/-! ## Claim C2: three consecutive timeouts -/

/-- Claim C2 as stated is false: with three consecutive timeouts the
call emits 4 error notifications (one per timeout, src/main.py:192, plus
the terminal `"API call failed after 3 attempts"` of the outer handler,
src/main.py:200), not 3. -/
theorem c2_three_errors_false :
    ¬ ((callDeepseekApi 100 (fun _ => AttemptResult.timedOut)).2.length = 3) := by
  decide

/-- Claim C2 amended: if all 3 attempts time out, the call returns the
fixed apology string and emits exactly 4 error notifications (and, the
embedding being total, no exception reaches the caller). -/
theorem c2_timeout_fallback (m : Nat) (o : Nat → AttemptResult)
    (h0 : o 0 = AttemptResult.timedOut) (h1 : o 1 = AttemptResult.timedOut)
    (h2 : o 2 = AttemptResult.timedOut) :
    (callDeepseekApi m o).1 = apology ∧ (callDeepseekApi m o).2.length = 4 := by
  simp [callDeepseekApi, runAttempts, maxRetries, h0, h1, h2]

/-- Witness for C2 at the constant all-timeouts oracle. -/
theorem c2_timeout_fallback_witness :
    (callDeepseekApi 100 (fun _ => AttemptResult.timedOut)).1 = apology ∧
    (callDeepseekApi 100 (fun _ => AttemptResult.timedOut)).2.length = 4 :=
  c2_timeout_fallback 100 (fun _ => AttemptResult.timedOut) rfl rfl rfl

/-! ## Claim C1: the response cache is never consulted -/

/-- Claim C1 is refuted by the code: even when the cache already holds
an entry whose similarity with the message is 1 (a guaranteed hit at the
default threshold 0.8), `process_message` still performs its one
generation call and leaves the cache untouched — src/main.py:226-253
contains no call to `response_cache.get` or `response_cache.add`. -/
theorem c1_cache_never_used :
    cacheGet ((4 : ℚ)/5) c1Cache ("hello".toList) = some ("hi there".toList) ∧
    (processMessage 100 (fun _ => AttemptResult.timedOut)
        { cache := c1Cache, subtitle := [], lastResponseTime := 0 }
        ("hello".toList) 5).state.cache = c1Cache ∧
    (processMessage 100 (fun _ => AttemptResult.timedOut)
        { cache := c1Cache, subtitle := [], lastResponseTime := 0 }
        ("hello".toList) 5).genCalls = 1 := by
  have hsim : simScore ("hello".toList) ("hello".toList) = 1 := by
    rw [show simScore ("hello".toList) ("hello".toList)
        = ((1 : ℕ) : ℚ) / ((1 : ℕ) : ℚ) from rfl]
    norm_num
  refine ⟨?_, rfl, rfl⟩
  show (if (4 : ℚ)/5 < simScore ("hello".toList) ("hello".toList)
      then some ("hi there".toList) else cacheGet ((4 : ℚ)/5) [] ("hello".toList))
    = some ("hi there".toList)
  rw [if_pos]
  rw [hsim]
  norm_num

/-! ## Claim C10: similarity guard and whitespace-only lookups -/

/-- `_compute_similarity` returns 0 whenever the first argument has no
words: the intersection is empty and the `union > 0` guard covers the
empty-union case. -/
theorem simScore_zero_of_left_empty (a b : List Char) (ha : wordsOf a = []) :
    simScore a b = 0 := by
  unfold simScore
  rw [ha]
  simp

/-- `get` with a word-free query rejects every entry. -/
theorem cacheGet_none_of_empty_words (thr : ℚ) (hthr : 0 ≤ thr) (q : List Char)
    (hq : wordsOf q = []) : ∀ st : CacheSt, cacheGet thr st q = none
  | [] => rfl
  | (k, v) :: rest => by
    unfold cacheGet
    rw [if_neg, cacheGet_none_of_empty_words thr hthr q hq rest]
    rw [simScore_zero_of_left_empty q k hq]
    exact not_lt.mpr hthr

/-- Claim C10: the similarity score is division-guarded — when both
strings tokenize to empty word sets it is 0 — and consequently a lookup
whose query tokenizes to no words returns `none` against every cache
state (in particular one that contains an identical whitespace-only
key), for any nonnegative threshold such as the configured 0.8. -/
theorem c10_similarity_guarded (thr : ℚ) (st : CacheSt) (a b q : List Char)
    (hthr : 0 ≤ thr) (ha : wordsOf a = []) (_hb : wordsOf b = [])
    (hq : wordsOf q = []) :
    simScore a b = 0 ∧ cacheGet thr st q = none :=
  ⟨simScore_zero_of_left_empty a b ha, cacheGet_none_of_empty_words thr hthr q hq st⟩

/-- Witness for C10: threshold 0.8, whitespace-only query `" "`, cache
holding the identical whitespace-only key. -/
theorem c10_similarity_guarded_witness :
    simScore [' '] ("  ".toList) = 0 ∧
    cacheGet ((4 : ℚ)/5) [([' '], "r".toList)] [' '] = none :=
  c10_similarity_guarded ((4 : ℚ)/5) [([' '], "r".toList)] [' '] ("  ".toList) [' ']
    (by norm_num) (by decide) (by decide) (by decide)

/-! ## Claim C9: cache capacity and key uniqueness -/

/-- A dict assignment grows the entry list by at most one. -/
theorem insertKV_length_le (st : CacheSt) (q r : List Char) :
    (insertKV st q r).length ≤ st.length + 1 := by
  unfold insertKV
  split
  · simp
  · simp

/-- A dict assignment preserves key uniqueness. -/
theorem insertKV_keys_nodup (st : CacheSt) (q r : List Char)
    (h : (st.map Prod.fst).Nodup) : ((insertKV st q r).map Prod.fst).Nodup := by
  unfold insertKV
  split
  · next hmem =>
    have : (st.map (fun e => if e.fst = q then (q, r) else e)).map Prod.fst
        = st.map Prod.fst := by
      rw [List.map_map]
      apply List.map_congr_left
      intro e _
      by_cases he : e.fst = q
      · simp [he]
      · simp [he]
    rw [this]; exact h
  · next hmem =>
    rw [List.map_append]
    simp only [List.map_cons, List.map_nil]
    rw [List.nodup_append]
    refine ⟨h, List.nodup_singleton q, ?_⟩
    intro x hx hy
    simp only [List.mem_singleton] at hy
    exact hmem (hy ▸ hx)

/-- `add` from an invariant state with positive capacity succeeds and
maintains the invariant. -/
theorem cacheAdd_inv (size : Nat) (hs : 1 ≤ size) (st : CacheSt) (q r : List Char)
    (h : CacheInv size st) :
    ∃ st2, cacheAdd size st q r = some st2 ∧ CacheInv size st2 := by
  obtain ⟨hlen, hnd⟩ := h
  unfold cacheAdd
  split
  · next hge =>
    cases st with
    | nil => exact absurd (hs.trans hge) (by decide)
    | cons e tail =>
      refine ⟨insertKV tail q r, rfl, ?_, ?_⟩
      · have h1 := insertKV_length_le tail q r
        simp only [List.length_cons] at hlen hge
        omega
      · exact insertKV_keys_nodup tail q r (by simpa using hnd.of_cons)
  · next hlt =>
    refine ⟨insertKV st q r, rfl, ?_, insertKV_keys_nodup st q r hnd⟩
    have h1 := insertKV_length_le st q r
    omega

/-- Any sequence of `add`s from an invariant state succeeds and keeps
the invariant. -/
theorem runAdds_inv (size : Nat) (hs : 1 ≤ size) :
    ∀ (ops : List (List Char × List Char)) (st : CacheSt), CacheInv size st →
      ∃ st2, runAdds size st ops = some st2 ∧ CacheInv size st2
  | [], st, h => ⟨st, rfl, h⟩
  | (q, r) :: ops, st, h => by
    obtain ⟨st2, hadd, h2⟩ := cacheAdd_inv size hs st q r h
    obtain ⟨st3, hrun, h3⟩ := runAdds_inv size hs ops st2 h2
    refine ⟨st3, ?_, h3⟩
    unfold runAdds
    rw [hadd]
    exact hrun

/-- Claim C9: after any sequence of inserts (from empty, with the
configured capacity at least 1 — the shipped default is 100) the cache
holds at most `size` entries and its keys are pairwise distinct. -/
theorem c9_cache_capacity (size : Nat) (hs : 1 ≤ size)
    (ops : List (List Char × List Char)) :
    ∃ st, runAdds size [] ops = some st ∧ st.length ≤ size ∧
      (st.map Prod.fst).Nodup := by
  obtain ⟨st, h1, h2, h3⟩ := runAdds_inv size hs ops [] ⟨by simp, by simp⟩
  exact ⟨st, h1, h2, h3⟩

/-- Witness for C9: capacity 1, two inserts — the first entry is
evicted, one entry remains. -/
theorem c9_cache_capacity_witness :
    ∃ st, runAdds 1 [] [("a".toList, "b".toList), ("c".toList, "d".toList)] = some st ∧
      st.length ≤ 1 ∧ (st.map Prod.fst).Nodup :=
  c9_cache_capacity 1 (by decide) _

/-! ## Claim C7: `stop()` on a full queue -/

/-- From the failing configuration — full queue, consumer mid-playback,
`should_stop` already set, `stop()` blocked in `put(None)` — every
reachable state still has the put incomplete: the consumer exits without
draining (the `while not self.should_stop` test, src/main.py:32, fails
before any further `get`), the queue stays full, and `stop()`'s blocking
`put` can never complete.  `stop()` therefore blocks indefinitely,
contradicting the claim. -/
theorem c7_stop_blocks (s : SinkState) (h : SinkReach stuckInit s) :
    s.putDone = false := by
  have key : ∀ t, SinkReach stuckInit t →
      t.stopFlag = true ∧ t.qsize = 10 ∧ t.putDone = false := by
    intro t ht
    induction ht with
    | refl => exact ⟨rfl, rfl, rfl⟩
    | step hr hstep ih =>
      obtain ⟨hf, hq, hp⟩ := ih
      cases hstep with
      | exitLoop h1 h2 => exact ⟨hf, hq, hp⟩
      | getItem h1 h2 h3 => rw [hf] at h2; cases h2
      | getTimeout h1 h2 h3 => exact ⟨hf, hq, hp⟩
      | playDone h1 => exact ⟨hf, hq, hp⟩
      | putOk h1 h2 =>
        rw [hq] at h2
        exact absurd h2 (by decide)
  exact (key s h).2.2

/-- Witness for C7: after the consumer finishes its playback and then
exits, the put is still pending. -/
theorem c7_stop_blocks_witness :
    ({ qsize := 10, phase := CPhase.exited, stopFlag := true,
       putWaiting := true, putDone := false } : SinkState).putDone = false :=
  c7_stop_blocks _
    (SinkReach.step (SinkReach.step SinkReach.refl (SinkStep.playDone stuckInit rfl))
      (SinkStep.exitLoop _ rfl rfl))

/-! ## Sanitizer structure lemmas (towards claims C5, C6, C8) -/

/-- Consuming up to the closing `*` yields a suffix. -/
theorem dropAfterStar_suffix : ∀ l r : List Char, dropAfterStar l = some r → r <:+ l
  | [], r, h => by cases h
  | c :: rest, r, h => by
    unfold dropAfterStar at h
    split at h
    · injection h with h1
      exact h1 ▸ (List.suffix_cons c rest)
    · exact ((dropAfterStar_suffix rest r h).trans (List.suffix_cons c rest))

/-- Consuming up to the closing `*` strictly shrinks the list. -/
theorem dropAfterStar_length : ∀ l r : List Char, dropAfterStar l = some r → r.length < l.length
  | [], r, h => by cases h
  | c :: rest, r, h => by
    unfold dropAfterStar at h
    split at h
    · injection h with h1
      simp [← h1]
    · exact Nat.lt_trans (dropAfterStar_length rest r h) (by simp)

/-- No closing `*` means no `*` at all. -/
theorem dropAfterStar_none_count : ∀ l : List Char, dropAfterStar l = none → l.count '*' = 0
  | [], _ => rfl
  | c :: rest, h => by
    unfold dropAfterStar at h
    split at h
    · cases h
    · next hne =>
      rw [← List.singleton_append, List.count_append, dropAfterStar_none_count rest h]
      simp [List.count_singleton, hne]

/-- Conversely, a star-free list has no closing `*`. -/
theorem dropAfterStar_none_of_count : ∀ l : List Char, l.count '*' = 0 → dropAfterStar l = none
  | [], _ => rfl
  | c :: rest, h => by
    rw [← List.singleton_append, List.count_append] at h
    unfold dropAfterStar
    split
    · next he => simp [List.count_singleton, he] at h
    · exact dropAfterStar_none_of_count rest (by omega)

/-- The `\*[^*]*\*` pass only deletes characters. -/
theorem removeStarsF_sublist : ∀ (f : Nat) (l : List Char), List.Sublist (removeStarsF f l) l
  | 0, l => List.Sublist.refl l
  | _ + 1, [] => List.Sublist.refl []
  | f + 1, c :: rest => by
    unfold removeStarsF
    split
    · split
      · next rest2 hdrop =>
        exact ((removeStarsF_sublist f rest2).trans
          (dropAfterStar_suffix rest rest2 hdrop).sublist).trans (List.sublist_cons_self c rest)
      · exact List.Sublist.refl _
    · exact List.Sublist.cons₂ c (removeStarsF_sublist f rest)

/-- With fuel covering the list, the `\*[^*]*\*` pass leaves at most one
(unpaired) `*`. -/
theorem removeStarsF_count_le_one :
    ∀ (f : Nat) (l : List Char), l.length ≤ f → (removeStarsF f l).count '*' ≤ 1 := by
  intro f
  induction f with
  | zero =>
    intro l hl
    have : l = [] := List.length_eq_zero.mp (Nat.le_zero.mp hl)
    subst this
    decide
  | succ f ih =>
    intro l hl
    cases l with
    | nil => simp [removeStarsF]
    | cons c rest =>
      unfold removeStarsF
      split
      · next hc =>
        split
        · next rest2 hdrop =>
          have hlen := dropAfterStar_length rest rest2 hdrop
          simp only [List.length_cons] at hl
          exact ih rest2 (by omega)
        · next hdrop =>
          rw [← List.singleton_append, List.count_append,
            dropAfterStar_none_count rest hdrop]
          have h1 : List.count '*' [c] = 1 := by simp [hc]
          omega
      · next hc =>
        rw [← List.singleton_append, List.count_append]
        have h1 : List.count '*' [c] = 0 := by simp [List.count_cons, hc]
        have h2 := ih rest (by simp only [List.length_cons] at hl; omega)
        omega

/-- `removeStars` leaves at most one `*`. -/
theorem removeStars_count_le_one (l : List Char) : (removeStars l).count '*' ≤ 1 :=
  removeStarsF_count_le_one l.length l (Nat.le_refl _)

/-- On a list that already has at most one `*` the pass is a no-op
(matching `re.sub`: the pattern needs a pair of asterisks). -/
theorem removeStarsF_eq_self :
    ∀ (f : Nat) (l : List Char), l.count '*' ≤ 1 → removeStarsF f l = l
  | 0, l, _ => rfl
  | _ + 1, [], _ => rfl
  | f + 1, c :: rest, h => by
    unfold removeStarsF
    split
    · next hc =>
      rw [← List.singleton_append, List.count_append] at h
      have hrest : rest.count '*' = 0 := by
        have : List.count '*' [c] = 1 := by simp [hc]
        omega
      rw [dropAfterStar_none_of_count rest hrest]
    · next hc =>
      rw [← List.singleton_append, List.count_append] at h
      rw [removeStarsF_eq_self f rest (by omega)]

/-- `removeStars` is a no-op on lists with at most one `*`. -/
theorem removeStars_eq_self (l : List Char) (h : l.count '*' ≤ 1) : removeStars l = l :=
  removeStarsF_eq_self l.length l h


/-- The remainder after the colon-and-whitespace part is a suffix. -/
theorem afterColon_suffix : ∀ l r : List Char, afterColon l = some r → r <:+ l
  | [], r, h => by cases h
  | d :: rest2, r, h => by
    simp only [afterColon] at h
    split at h
    · injection h with h1
      exact h1 ▸ ((List.dropWhile_suffix isSpace).trans (List.suffix_cons d rest2))
    · cases h

/-- The remainder after a `^[^:]+:\s+` match is a suffix. -/
theorem scanColon_suffix : ∀ l r : List Char, scanColon l = some r → r <:+ l
  | [], r, h => by cases h
  | c :: rest, r, h => by
    simp only [scanColon] at h
    split at h
    · exact (afterColon_suffix rest r h).trans (List.suffix_cons c rest)
    · exact (scanColon_suffix rest r h).trans (List.suffix_cons c rest)

/-- The speaker-stripping pass only deletes a prefix. -/
theorem stripSpeaker_sublist (l : List Char) : List.Sublist (stripSpeaker l) l := by
  unfold stripSpeaker
  cases hsp : speakerHit l with
  | none => exact List.Sublist.refl l
  | some r =>
    cases l with
    | nil => cases hsp
    | cons c rest =>
      simp only [speakerHit] at hsp
      split at hsp
      · cases hsp
      · exact ((scanColon_suffix rest r hsp).trans (List.suffix_cons c rest)).sublist

/-- The whitespace strips only delete characters. -/
theorem stripL_sublist (l : List Char) : List.Sublist (stripL l) l :=
  (List.dropWhile_suffix isSpace).sublist

theorem stripR_sublist (l : List Char) : List.Sublist (stripR l) l := by
  have h1 : List.Sublist (l.reverse.dropWhile isSpace) l.reverse :=
    (List.dropWhile_suffix isSpace).sublist
  have h2 := h1.reverse
  rwa [List.reverse_reverse] at h2

theorem stripWs_sublist (l : List Char) : List.Sublist (stripWs l) l :=
  (stripR_sublist (stripL l)).trans (stripL_sublist l)

/-- The whole of steps 1-4 is a sublist of the astral-filtered input. -/
theorem cleanCore_sublist (x : List Char) :
    List.Sublist (cleanCore x) (removeAstral x) :=
  ((stripWs_sublist _).trans (stripSpeaker_sublist _)).trans (removeStarsF_sublist _ _)

/-- `dropWhile` is idempotent. -/
theorem dropWhile_idem (p : Char → Bool) (l : List Char) :
    List.dropWhile p (List.dropWhile p l) = List.dropWhile p l := by
  cases h : List.dropWhile p l with
  | nil => rfl
  | cons c t =>
    have hc : p c = false := by
      have h2 := List.head?_dropWhile_not p l
      rw [h] at h2
      simpa using h2
    rw [List.dropWhile_cons, if_neg (by simp [hc])]

/-- `stripR` keeps a prefix of its argument. -/
theorem stripR_prefix (l : List Char) : stripR l <+: l := by
  obtain ⟨t, ht⟩ := List.dropWhile_suffix (l := l.reverse) isSpace
  refine ⟨t.reverse, ?_⟩
  have h2 := congrArg List.reverse ht
  rw [List.reverse_append, List.reverse_reverse] at h2
  exact h2

/-- The head of a leading-stripped list is not whitespace. -/
theorem stripL_head_not_space (l : List Char) (c : Char)
    (h : (stripL l).head? = some c) : isSpace c = false := by
  have h2 := List.head?_dropWhile_not isSpace l
  unfold stripL at h
  rw [h] at h2
  simpa using h2

/-- Dropping leading whitespace from a list whose head is not whitespace
does nothing. -/
theorem stripL_eq_self_of_head (l : List Char) (c : Char) (h : l.head? = some c)
    (hc : isSpace c = false) : stripL l = l := by
  obtain ⟨t, rfl⟩ : ∃ t, l = c :: t := by
    cases l with
    | nil => cases h
    | cons a t =>
      injection h with h1
      exact ⟨t, by rw [h1]⟩
  unfold stripL
  rw [List.dropWhile_cons, if_neg (by simp [hc])]

/-- `str.strip()` is idempotent. -/
theorem stripWs_idem (l : List Char) : stripWs (stripWs l) = stripWs l := by
  have step2 : ∀ m : List Char, stripR (stripR m) = stripR m := by
    intro m
    unfold stripR
    rw [List.reverse_reverse, dropWhile_idem]
  have step1 : stripL (stripR (stripL l)) = stripR (stripL l) := by
    cases h : (stripR (stripL l)).head? with
    | none =>
      rw [List.head?_eq_none_iff.mp h]
      rfl
    | some c =>
      have hqh : (stripL l).head? = some c := by
        obtain ⟨u, hu⟩ := stripR_prefix (stripL l)
        obtain ⟨t, ht⟩ : ∃ t, stripR (stripL l) = c :: t := by
          cases hsr : stripR (stripL l) with
          | nil => rw [hsr] at h; cases h
          | cons a t =>
            rw [hsr] at h
            injection h with h1
            exact ⟨t, by rw [h1]⟩
        rw [← hu, ht]
        rfl
      exact stripL_eq_self_of_head _ c h (stripL_head_not_space l c hqh)
  show stripR (stripL (stripR (stripL l))) = stripR (stripL l)
  rw [step1, step2]

/-- The greedy sentence accumulator yields either the empty list or a
space-terminated list of length at most `m + 1`. -/
theorem takeSentences_shape (m : Nat) :
    ∀ (ss : List (List Char)) (acc : List Char),
      (acc = [] ∨ (acc.getLast? = some ' ' ∧ acc.length ≤ m + 1)) →
      (takeSentences m ss acc = [] ∨
        ((takeSentences m ss acc).getLast? = some ' ' ∧
          (takeSentences m ss acc).length ≤ m + 1))
  | [], acc, h => h
  | s :: ss, acc, h => by
    unfold takeSentences
    split
    · next hle =>
      apply takeSentences_shape m ss
      right
      refine ⟨List.getLast?_concat _, ?_⟩
      simp only [List.length_append, List.length_cons, List.length_nil]
      omega
    · exact h

theorem stripWs_length_le (l : List Char) : (stripWs l).length ≤ l.length :=
  (stripWs_sublist l).length_le

/-- Stripping a list that ends in a space shortens it. -/
theorem stripWs_length_lt_of_last_space (l : List Char) (h : l.getLast? = some ' ') :
    (stripWs l).length + 1 ≤ l.length := by
  cases hq : stripL l with
  | nil =>
    have hlen : 1 ≤ l.length := by
      cases l with
      | nil => cases h
      | cons a t => simp
    have hws : stripWs l = [] := by
      unfold stripWs
      rw [hq]
      rfl
    rw [hws]
    simpa using hlen
  | cons a t =>
    obtain ⟨u, hu⟩ : stripL l <:+ l := List.dropWhile_suffix isSpace
    have hlast : (stripL l).getLast? = some ' ' := by
      rw [← hu] at h
      rwa [List.getLast?_append_of_ne_nil _ (by rw [hq]; simp)] at h
    have hrev : (stripL l).reverse.head? = some ' ' := by
      rw [List.head?_reverse]
      exact hlast
    obtain ⟨t2, ht2⟩ : ∃ t2, (stripL l).reverse = ' ' :: t2 := by
      cases hr : (stripL l).reverse with
      | nil => rw [hr] at hrev; cases hrev
      | cons b t2 =>
        rw [hr] at hrev
        injection hrev with h1
        exact ⟨t2, by rw [h1]⟩
    have hlen2 : (stripL l).length = t2.length + 1 := by
      have h3 : (stripL l).reverse.length = (stripL l).length := List.length_reverse _
      rw [ht2] at h3
      simpa using h3.symm
    have hdw : (stripWs l).length ≤ t2.length := by
      show (stripR (stripL l)).length ≤ t2.length
      unfold stripR
      rw [List.length_reverse, ht2, List.dropWhile_cons, if_pos (by decide)]
      exact (List.dropWhile_suffix isSpace).sublist.length_le
    have hstr : (stripL l).length ≤ l.length := (stripL_sublist l).length_le
    omega

/-- `_clean_response` never returns more than the configured maximum
number of characters. -/
theorem clean_length_le (m : Nat) (x : List Char) :
    (clean_response m x).length ≤ m := by
  unfold clean_response
  split
  · rcases takeSentences_shape m (splitSentences (cleanCore x)) [] (Or.inl rfl) with
      he | ⟨hlast, hlen⟩
    · rw [he]
      exact Nat.zero_le m
    · have h2 := stripWs_length_lt_of_last_space _ hlast
      omega
  · next hnot => omega

/-- Characters of the split sentences come from the accumulator or the
remaining input. -/
theorem mem_splitFuel :
    ∀ (f : Nat) (skip : Bool) (cur rest : List Char) (s : List Char) (c : Char),
      s ∈ splitFuel f skip cur rest → c ∈ s → c ∈ cur ∨ c ∈ rest := by
  intro f
  induction f with
  | zero =>
    intro skip cur rest s c hs hc
    simp only [splitFuel, List.mem_singleton] at hs
    subst hs
    rcases List.mem_append.mp hc with h | h
    · exact Or.inl (List.mem_reverse.mp h)
    · exact Or.inr h
  | succ f ih =>
    intro skip cur rest s c hs hc
    cases rest with
    | nil =>
      simp only [splitFuel, List.mem_singleton] at hs
      subst hs
      exact Or.inl (List.mem_reverse.mp hc)
    | cons c0 rest =>
      simp only [splitFuel] at hs
      split at hs
      · rcases ih true cur rest s c hs hc with h | h
        · exact Or.inl h
        · exact Or.inr (List.mem_cons_of_mem c0 h)
      · split at hs
        · rcases List.mem_cons.mp hs with h | h
          · subst h
            rcases List.mem_append.mp hc with h2 | h2
            · exact Or.inl (List.mem_reverse.mp h2)
            · exact Or.inr ((List.mem_singleton.mp h2) ▸ List.mem_cons_self c0 rest)
          · rcases ih true [] rest s c h hc with h2 | h2
            · exact absurd h2 (List.not_mem_nil c)
            · exact Or.inr (List.mem_cons_of_mem c0 h2)
        · rcases ih false (c0 :: cur) rest s c hs hc with h | h
          · rcases List.mem_cons.mp h with h2 | h2
            · exact Or.inr (h2 ▸ List.mem_cons_self c0 rest)
            · exact Or.inl h2
          · exact Or.inr (List.mem_cons_of_mem c0 h)

/-- Characters of the greedy accumulation come from the accumulator, a
sentence, or the inserted separator space. -/
theorem mem_takeSentences (m : Nat) :
    ∀ (ss : List (List Char)) (acc : List Char) (c : Char),
      c ∈ takeSentences m ss acc → c ∈ acc ∨ (∃ s ∈ ss, c ∈ s) ∨ c = ' '
  | [], _, _, h => Or.inl h
  | s :: ss, acc, c, h => by
    unfold takeSentences at h
    split at h
    · rcases mem_takeSentences m ss (acc ++ s ++ [' ']) c h with h1 | h1 | h1
      · rcases List.mem_append.mp h1 with h2 | h2
        · rcases List.mem_append.mp h2 with h3 | h3
          · exact Or.inl h3
          · exact Or.inr (Or.inl ⟨s, List.mem_cons_self s ss, h3⟩)
        · exact Or.inr (Or.inr (List.mem_singleton.mp h2))
      · obtain ⟨s2, hs2, hc2⟩ := h1
        exact Or.inr (Or.inl ⟨s2, List.mem_cons_of_mem s hs2, hc2⟩)
      · exact Or.inr (Or.inr h1)
    · exact Or.inl h

/-- Characters surviving the astral filter are in the BMP. -/
theorem mem_removeAstral (x : List Char) (c : Char) (h : c ∈ removeAstral x) :
    c.toNat < 65536 := by
  unfold removeAstral at h
  have h2 := List.of_mem_filter h
  simpa using h2

/-- The astral filter is a no-op on BMP text. -/
theorem removeAstral_eq_self (l : List Char) (h : ∀ c ∈ l, c.toNat < 65536) :
    removeAstral l = l := by
  unfold removeAstral
  apply List.filter_eq_self.mpr
  intro a ha
  simpa using h a ha

/-- Every character of a cleaned response is in the BMP. -/
theorem clean_bmp (m : Nat) (x : List Char) (c : Char)
    (h : c ∈ clean_response m x) : c.toNat < 65536 := by
  unfold clean_response at h
  split at h
  · have h1 := (stripWs_sublist _).mem h
    rcases mem_takeSentences m _ _ c h1 with h2 | h2 | h2
    · exact absurd h2 (List.not_mem_nil c)
    · obtain ⟨s, hs, hc⟩ := h2
      simp only [splitSentences] at hs
      rcases mem_splitFuel _ false [] _ s c hs hc with h3 | h3
      · exact absurd h3 (List.not_mem_nil c)
      · exact mem_removeAstral x c ((cleanCore_sublist x).mem h3)
    · subst h2
      decide
  · exact mem_removeAstral x c ((cleanCore_sublist x).mem h)

/-- The sentences of the split hold no more occurrences of a character
than the input (the split only discards whitespace). -/
theorem splitFuel_count (x0 : Char) :
    ∀ (f : Nat) (skip : Bool) (cur rest : List Char),
      ((splitFuel f skip cur rest).map (fun s => s.count x0)).sum
        ≤ cur.count x0 + rest.count x0 := by
  intro f
  induction f with
  | zero =>
    intro skip cur rest
    simp [splitFuel, List.count_append, List.count_reverse]
  | succ f ih =>
    intro skip cur rest
    cases rest with
    | nil => simp [splitFuel, List.count_reverse]
    | cons c0 rest =>
      have hsplit : (c0 :: rest).count x0 = List.count x0 [c0] + rest.count x0 := by
        rw [← List.singleton_append, List.count_append]
      simp only [splitFuel]
      split
      · have h1 := ih true cur rest
        omega
      · split
        · simp only [List.map_cons, List.sum_cons]
          have h1 := ih true [] rest
          simp only [List.count_nil] at h1
          have hcnt : (cur.reverse ++ [c0]).count x0
              = cur.count x0 + List.count x0 [c0] := by
            rw [List.count_append, List.count_reverse]
          omega
        · have h1 := ih false (c0 :: cur) rest
          have hsplit2 : (c0 :: cur).count x0 = List.count x0 [c0] + cur.count x0 := by
            rw [← List.singleton_append, List.count_append]
          omega

/-- The greedy accumulation holds no more occurrences of a non-space
character than the accumulator plus the sentences. -/
theorem takeSentences_count (m : Nat) (x0 : Char) (hx : x0 ≠ ' ') :
    ∀ (ss : List (List Char)) (acc : List Char),
      (takeSentences m ss acc).count x0
        ≤ acc.count x0 + ((ss.map (fun s => s.count x0)).sum)
  | [], acc => by simp [takeSentences]
  | s :: ss, acc => by
    unfold takeSentences
    split
    · have h1 := takeSentences_count m x0 hx ss (acc ++ s ++ [' '])
      have h2 : (acc ++ s ++ [' ']).count x0 = acc.count x0 + s.count x0 := by
        rw [List.count_append, List.count_append]
        have h3 : List.count x0 [' '] = 0 := by
          simp [List.count_cons, Ne.symm hx]
        omega
      simp only [List.map_cons, List.sum_cons]
      omega
    · simp only [List.map_cons, List.sum_cons]
      omega

/-- A cleaned response holds at most one `*`. -/
theorem clean_count_star (m : Nat) (x : List Char) :
    (clean_response m x).count '*' ≤ 1 := by
  have hcore : List.Sublist (cleanCore x) (removeStars (removeAstral x)) := by
    unfold cleanCore
    exact (stripWs_sublist _).trans (stripSpeaker_sublist _)
  have hcore2 : (cleanCore x).count '*' ≤ 1 :=
    le_trans (hcore.count_le '*') (removeStars_count_le_one (removeAstral x))
  unfold clean_response
  split
  · have h0 := takeSentences_count m '*' (by decide) (splitSentences (cleanCore x)) []
    simp only [List.count_nil, Nat.zero_add] at h0
    have h1 := splitFuel_count '*' (cleanCore x).length false [] (cleanCore x)
    simp only [splitSentences] at h0
    simp only [List.count_nil, Nat.zero_add] at h1
    have h4 := (stripWs_sublist
      (takeSentences m (splitFuel (cleanCore x).length false [] (cleanCore x)) [])).count_le '*'
    simp only [splitSentences]
    omega
  · exact hcore2

/-- A cleaned response is already whitespace-stripped. -/
theorem stripWs_clean (m : Nat) (x : List Char) :
    stripWs (clean_response m x) = clean_response m x := by
  unfold clean_response
  split
  · exact stripWs_idem _
  · show stripWs (cleanCore x) = cleanCore x
    unfold cleanCore
    exact stripWs_idem _

/-! ## Claim C5: the spec's sanitizer example -/

/-- Claim C5 as stated is false: the code does not return
`"I'm happy to see you!"` on the example input with a 40-character cap. -/
theorem c5_single_space_false : clean_response 40 c5Input ≠ c5SpecOut := by
  decide

/-- Claim C5 amended: the code returns `"I'm  happy to see you!"` — with
two spaces between `I'm` and `happy`, because deleting the `*so*` span
(src/main.py:112) leaves both of its flanking spaces, and no later step
collapses interior whitespace. -/
theorem c5_sanitizer_example : clean_response 40 c5Input = c5CodeOut := by
  decide

/-! ## Claim C8: idempotence of the sanitizer -/

/-- Claim C8 as stated is false: `clean("A: B: C") = "B: C"` is in the
image of `clean`, yet cleaning it again strips a second
speaker-style prefix and yields `"C"`. -/
theorem c8_not_idempotent :
    clean_response 100 (clean_response 100 ("A: B: C".toList))
      ≠ clean_response 100 ("A: B: C".toList) := by
  decide

/-- Claim C8 amended: `clean` is idempotent on its image except when the
cleaned text itself still matches the leading `^[^:]+:\s+` speaker
pattern (which a second application would strip): whenever the cleaned
output does not match that pattern, cleaning it again returns it
unchanged. -/
theorem c8_clean_idem (m : Nat) (x : List Char)
    (h : speakerHit (clean_response m x) = none) :
    clean_response m (clean_response m x) = clean_response m x := by
  have h1 : removeAstral (clean_response m x) = clean_response m x :=
    removeAstral_eq_self _ (fun c hc => clean_bmp m x c hc)
  have h2 : removeStars (clean_response m x) = clean_response m x :=
    removeStars_eq_self _ (clean_count_star m x)
  have h3 : stripSpeaker (clean_response m x) = clean_response m x := by
    unfold stripSpeaker
    rw [h]
    rfl
  have h4 : stripWs (clean_response m x) = clean_response m x := stripWs_clean m x
  have hcore : cleanCore (clean_response m x) = clean_response m x := by
    unfold cleanCore
    rw [h1, h2, h3, h4]
  have hlen := clean_length_le m x
  rw [clean_response, hcore, if_neg (by omega)]

/-- Witness for C8 on a concrete already-clean string. -/
theorem c8_clean_idem_witness :
    speakerHit (clean_response 100 ("hi there.".toList)) = none ∧
    clean_response 100 (clean_response 100 ("hi there.".toList))
      = clean_response 100 ("hi there.".toList) :=
  ⟨by decide, c8_clean_idem 100 ("hi there.".toList) (by decide)⟩

/-! ## Claim C6: every returned string passed through the sanitizer -/

/-- The retry loop returns either nothing (terminal raise) or a string
that went through `_clean_response`. -/
theorem runAttempts_shape (m : Nat) (o : Nat → AttemptResult) :
    ∀ (f i : Nat), (runAttempts m o i f).2 = none ∨
      ∃ b, (runAttempts m o i f).2 = some (clean_response m b)
  | 0, _ => Or.inl rfl
  | f + 1, i => by
    cases h : o i with
    | ok body =>
      exact Or.inr ⟨body, by simp [runAttempts, h]⟩
    | httpErr code =>
      by_cases hi : i = maxRetries - 1
      · exact Or.inl (by subst hi; simp [runAttempts, h])
      · rcases runAttempts_shape m o f (i + 1) with h2 | ⟨b, h2⟩
        · exact Or.inl (by simp [runAttempts, h, hi, h2])
        · exact Or.inr ⟨b, by simp [runAttempts, h, hi, h2]⟩
    | timedOut =>
      by_cases hi : i = maxRetries - 1
      · exact Or.inl (by subst hi; simp [runAttempts, h])
      · rcases runAttempts_shape m o f (i + 1) with h2 | ⟨b, h2⟩
        · exact Or.inl (by simp [runAttempts, h, hi, h2])
        · exact Or.inr ⟨b, by simp [runAttempts, h, hi, h2]⟩

/-- Claim C6 amended: the generation call returns either a string that
passed through `_clean_response` (the 200 path, src/main.py:183) or the
raw fixed apology string (the degraded path, src/main.py:201), which is
returned without passing through the sanitizer. -/
theorem c6_sanitized_or_apology (m : Nat) (o : Nat → AttemptResult) :
    (∃ b, (callDeepseekApi m o).1 = clean_response m b) ∨
      (callDeepseekApi m o).1 = apology := by
  unfold callDeepseekApi
  rcases runAttempts_shape m o maxRetries 0 with h | ⟨b, h⟩
  · right
    rcases hr : runAttempts m o 0 maxRetries with ⟨errs, res⟩
    rw [hr] at h
    simp only at h
    subst h
    rfl
  · left
    refine ⟨b, ?_⟩
    rcases hr : runAttempts m o 0 maxRetries with ⟨errs, res⟩
    rw [hr] at h
    simp only at h
    subst h
    rfl

/-- Claim C6 as stated is false: with a 40-character configured maximum
and three timeouts, the call returns the apology string, which is longer
than 40 characters and therefore cannot be the output of
`_clean_response` for any input — it did not pass through the
sanitizer. -/
theorem c6_fallback_unsanitized :
    (callDeepseekApi 40 (fun _ => AttemptResult.timedOut)).1 = apology ∧
    ∀ raw, clean_response 40 raw ≠ apology := by
  refine ⟨rfl, ?_⟩
  intro raw hr
  have hlen := clean_length_le 40 raw
  rw [hr] at hlen
  exact absurd hlen (by decide)

/-! ## Claim C3: what can interleave with what -/

theorem projTask_append (t : Bool) (l1 l2 : Schedule) :
    projTask t (l1 ++ l2) = projTask t l1 ++ projTask t l2 := by
  unfold projTask
  rw [List.filter_append, List.map_append]

theorem projTask_cons_same (t : Bool) (st : PStep) (l : Schedule) :
    projTask t ((t, st) :: l) = st :: projTask t l := by
  simp [projTask]

theorem projTask_cons_other (t t' : Bool) (h : t' ≠ t) (st : PStep) (l : Schedule) :
    projTask t ((t', st) :: l) = projTask t l := by
  simp [projTask, h]

/-- An event of task `t` contributes its step to `t`'s projection. -/
theorem mem_projTask_of_mem {e : Bool × PStep} {l : Schedule} {t : Bool}
    (h1 : e ∈ l) (h2 : e.fst = t) : e.snd ∈ projTask t l := by
  unfold projTask
  exact List.mem_map_of_mem _ (List.mem_filter.mpr ⟨h1, by simp [h2]⟩)

/-- A step in task `t`'s projection comes from an event of task `t`. -/
theorem mem_of_mem_projTask {st : PStep} {l : Schedule} {t : Bool}
    (h : st ∈ projTask t l) : (t, st) ∈ l := by
  unfold projTask at h
  obtain ⟨e, he, heq⟩ := List.mem_map.mp h
  obtain ⟨hel, hef⟩ := List.mem_filter.mp he
  obtain ⟨e1, e2⟩ := e
  have h1 : e1 = t := by simpa using hef
  have h2 : e2 = st := heq
  rw [← h1, ← h2]
  exact hel

/-- A failed lock walk stays failed. -/
theorem lockFoldNone : ∀ l : Schedule, List.foldl lockStep none l = none
  | [] => rfl
  | _ :: l => lockFoldNone l

/-- Whatever the lock state, processing a `synthStart` event of task `t`
either leaves `t` owning the lock or is impossible. -/
theorem lockStep_synthStart (w : Option (Option Bool)) (t : Bool) :
    lockStep w (t, PStep.synthStart) = some (some t) ∨
      lockStep w (t, PStep.synthStart) = none := by
  match w with
  | none => exact Or.inr rfl
  | some none => exact Or.inr (by simp [lockStep])
  | some (some o) =>
    by_cases h : t = o
    · subst h
      exact Or.inl (by simp [lockStep])
    · exact Or.inr (by simp [lockStep, h])

/-- While task `a` owns the lock and has not released it, no event of
another task `b` can be processed: a walk that reaches `b`'s `gateCheck`
before `a`'s release fails. -/
theorem lockRun_blocked (a b : Bool) (hab : a ≠ b) :
    ∀ v : Schedule, (a, PStep.lockRelease) ∉ v →
      ∀ w : Schedule,
        List.foldl lockStep (some (some a)) (v ++ (b, PStep.gateCheck) :: w) = none := by
  intro v
  induction v with
  | nil =>
    intro _ w
    rw [List.nil_append, List.foldl_cons]
    have hba : ¬ b = a := fun h => hab h.symm
    have hstep : lockStep (some (some a)) (b, PStep.gateCheck) = none := by
      simp [lockStep, hba]
    rw [hstep]
    exact lockFoldNone w
  | cons e v ih =>
    intro hmem w
    rw [List.cons_append, List.foldl_cons]
    rcases e with ⟨t, st⟩
    by_cases ht : t = a
    · subst ht
      have hst : st ≠ PStep.lockRelease := by
        intro hcontra
        subst hcontra
        exact hmem (List.mem_cons_self _ _)
      have hstep : lockStep (some (some t)) (t, st) = some (some t) := by
        simp [lockStep, hst]
      rw [hstep]
      exact ih (fun hh => hmem (List.mem_cons_of_mem _ hh)) w
    · have hstep : lockStep (some (some a)) (t, st) = none := by
        simp [lockStep, ht]
      rw [hstep]
      exact lockFoldNone _

/-- Splitting two decompositions of a list at an element that occurs in
neither left part. -/
theorem single_split {α : Type} (x : α) :
    ∀ (u p v q : List α), u ++ x :: v = p ++ x :: q → x ∉ u → x ∉ p →
      u = p ∧ v = q
  | [], [], v, q, h, _, _ => ⟨rfl, by injection h⟩
  | [], y :: p, v, q, h, _, hp => by
    rw [List.nil_append, List.cons_append] at h
    injection h with h1 h2
    subst h1
    exact absurd (List.mem_cons_self x p) hp
  | y :: u, [], v, q, h, hu, _ => by
    rw [List.cons_append, List.nil_append] at h
    injection h with h1 h2
    subst h1
    exact absurd (List.mem_cons_self y u) hu
  | y :: u, z :: p, v, q, h, hu, hp => by
    rw [List.cons_append, List.cons_append] at h
    injection h with h1 h2
    obtain ⟨e1, e2⟩ := single_split x u p v q h2
      (fun hh => hu (List.mem_cons_of_mem y hh))
      (fun hh => hp (List.mem_cons_of_mem z hh))
    exact ⟨by rw [h1, e1], e2⟩

/-- An element with a single occurrence is in neither side of a split
around it. -/
theorem count_one_split {α : Type} [DecidableEq α] (x : α) (u v M : List α)
    (h : u ++ x :: v = M) (hM : M.count x = 1) : x ∉ u ∧ x ∉ v := by
  subst h
  rw [List.count_append, ← List.singleton_append, List.count_append] at hM
  have hx : List.count x [x] = 1 := by simp
  have hu : u.count x = 0 := by omega
  have hv : v.count x = 0 := by omega
  exact ⟨List.count_eq_zero.mp hu, List.count_eq_zero.mp hv⟩

/-- Claim C3 as stated is false: there is no valid execution of two
concurrent `process_message` tasks in which the later task passes the
rate-limit gate while the earlier one is inside speech synthesis — the
`async with self.processing_lock` block (src/main.py:228-250) spans the
synthesis, so the gate of the other task cannot be entered in between. -/
theorem c3_interleaving_impossible :
    ¬ ∃ (u v w z : Schedule) (a b : Bool), a ≠ b ∧
      ValidSchedule (u ++ (a, PStep.synthStart) ::
        (v ++ (b, PStep.gateCheck) :: (w ++ (a, PStep.synthEnd) :: z))) := by
  rintro ⟨u, v, w, z, a, b, hab, hpa, hpb, hlock⟩
  have hba : b ≠ a := fun h => hab h.symm
  have hproj : projTask a (u ++ (a, PStep.synthStart) ::
      (v ++ (b, PStep.gateCheck) :: (w ++ (a, PStep.synthEnd) :: z))) = taskSteps := by
    cases a
    · exact hpa
    · exact hpb
  rw [projTask_append, projTask_cons_same, projTask_append,
    projTask_cons_other a b hba, projTask_append, projTask_cons_same] at hproj
  obtain ⟨hnu, _⟩ := count_one_split PStep.synthStart (projTask a u)
    (projTask a v ++ (projTask a w ++ PStep.synthEnd :: projTask a z))
    taskSteps hproj (by decide)
  have hts : taskSteps
      = [PStep.lockAcquire, PStep.gateCheck, PStep.apiCall, PStep.subtitleWrite]
        ++ PStep.synthStart ::
          [PStep.synthEnd, PStep.audioEnqueue, PStep.setLastTime, PStep.lockRelease] := rfl
  rw [hts] at hproj
  obtain ⟨-, hsplit⟩ := single_split PStep.synthStart (projTask a u) _ _ _ hproj hnu (by decide)
  have hvnil : projTask a v = [] := by
    have hcnt := congrArg (List.count PStep.synthEnd) hsplit
    rw [List.count_append, List.count_append, ← List.singleton_append,
      List.count_append] at hcnt
    have h1 : List.count PStep.synthEnd [PStep.synthEnd] = 1 := by decide
    have h2 : List.count PStep.synthEnd
        [PStep.synthEnd, PStep.audioEnqueue, PStep.setLastTime, PStep.lockRelease] = 1 := by
      decide
    have hzero : (projTask a v).count PStep.synthEnd = 0 := by omega
    cases hv : projTask a v with
    | nil => rfl
    | cons h0 t0 =>
      rw [hv, List.cons_append] at hsplit
      injection hsplit with hh0 _
      rw [hv, hh0] at hzero
      rw [← List.singleton_append, List.count_append] at hzero
      have : List.count PStep.synthEnd [PStep.synthEnd] = 1 := by decide
      omega
  have hrel : (a, PStep.lockRelease) ∉ v := by
    intro hmem
    have h3 := mem_projTask_of_mem hmem rfl
    rw [hvnil] at h3
    exact absurd h3 (List.not_mem_nil _)
  have hrun : lockRun (u ++ (a, PStep.synthStart) ::
      (v ++ (b, PStep.gateCheck) :: (w ++ (a, PStep.synthEnd) :: z))) = none := by
    unfold lockRun
    rw [List.foldl_append, List.foldl_cons]
    rcases lockStep_synthStart (List.foldl lockStep (some none) u) a with hw | hw
    · rw [hw]
      exact lockRun_blocked a b hab v hrel _
    · rw [hw]
      exact lockFoldNone _
  rw [hrun] at hlock
  exact absurd hlock (by decide)

/-- Claim C3 amended: the serialization goes the other way — in every
valid two-task execution, if the later task's rate-limit gate check
comes anywhere after the earlier task's synthesis has started, then the
earlier task's synthesis has finished *and* its lock release has
occurred before that gate check: the whole `process_message` body,
speech synthesis included, is serialized by `self.processing_lock`; only
the audio thread's playback runs concurrently. -/
theorem c3_gate_serialized (s u v w : Schedule) (a b : Bool)
    (hs : ValidSchedule s)
    (hdec : s = u ++ (a, PStep.synthStart) :: (v ++ (b, PStep.gateCheck) :: w))
    (hab : a ≠ b) :
    (a, PStep.synthEnd) ∈ v ∧ (a, PStep.lockRelease) ∈ v := by
  obtain ⟨hpa, hpb, hlock⟩ := hs
  subst hdec
  have hba : b ≠ a := fun h => hab h.symm
  have hrel : (a, PStep.lockRelease) ∈ v := by
    by_contra hniv
    have hrun : lockRun (u ++ (a, PStep.synthStart) ::
        (v ++ (b, PStep.gateCheck) :: w)) = none := by
      unfold lockRun
      rw [List.foldl_append, List.foldl_cons]
      rcases lockStep_synthStart (List.foldl lockStep (some none) u) a with hw | hw
      · rw [hw]
        exact lockRun_blocked a b hab v hniv _
      · rw [hw]
        exact lockFoldNone _
    rw [hrun] at hlock
    exact absurd hlock (by decide)
  refine ⟨?_, hrel⟩
  have hproj : projTask a (u ++ (a, PStep.synthStart) ::
      (v ++ (b, PStep.gateCheck) :: w)) = taskSteps := by
    cases a
    · exact hpa
    · exact hpb
  rw [projTask_append, projTask_cons_same, projTask_append,
    projTask_cons_other a b hba] at hproj
  obtain ⟨hnu, _⟩ := count_one_split PStep.synthStart (projTask a u)
    (projTask a v ++ projTask a w) taskSteps hproj (by decide)
  have hts : taskSteps
      = [PStep.lockAcquire, PStep.gateCheck, PStep.apiCall, PStep.subtitleWrite]
        ++ PStep.synthStart ::
          [PStep.synthEnd, PStep.audioEnqueue, PStep.setLastTime, PStep.lockRelease] := rfl
  rw [hts] at hproj
  obtain ⟨-, hsplit⟩ := single_split PStep.synthStart (projTask a u) _ _ _ hproj hnu (by decide)
  have hrelp : PStep.lockRelease ∈ projTask a v := mem_projTask_of_mem hrel rfl
  cases hv : projTask a v with
  | nil =>
    rw [hv] at hrelp
    exact absurd hrelp (List.not_mem_nil _)
  | cons h0 t0 =>
    rw [hv, List.cons_append] at hsplit
    injection hsplit with hh0 _
    have hsE : PStep.synthEnd ∈ projTask a v := by
      rw [hv, ← hh0]
      exact List.mem_cons_self h0 t0
    exact mem_of_mem_projTask hsE

/-- Witness for C3 on the sequential execution: task `false` runs
completely, then task `true`; the gate check of `true` follows the
synthesis start of `false`, and indeed `false`'s synthesis end and lock
release lie in between. -/
theorem c3_gate_serialized_witness :
    ((false : Bool), PStep.synthEnd) ∈
        ([(false, PStep.synthEnd), (false, PStep.audioEnqueue), (false, PStep.setLastTime),
          (false, PStep.lockRelease), (true, PStep.lockAcquire)] : Schedule) ∧
    ((false : Bool), PStep.lockRelease) ∈
        ([(false, PStep.synthEnd), (false, PStep.audioEnqueue), (false, PStep.setLastTime),
          (false, PStep.lockRelease), (true, PStep.lockAcquire)] : Schedule) :=
  c3_gate_serialized
    [(false, PStep.lockAcquire), (false, PStep.gateCheck), (false, PStep.apiCall),
      (false, PStep.subtitleWrite), (false, PStep.synthStart), (false, PStep.synthEnd),
      (false, PStep.audioEnqueue), (false, PStep.setLastTime), (false, PStep.lockRelease),
      (true, PStep.lockAcquire), (true, PStep.gateCheck), (true, PStep.apiCall),
      (true, PStep.subtitleWrite), (true, PStep.synthStart), (true, PStep.synthEnd),
      (true, PStep.audioEnqueue), (true, PStep.setLastTime), (true, PStep.lockRelease)]
    [(false, PStep.lockAcquire), (false, PStep.gateCheck), (false, PStep.apiCall),
      (false, PStep.subtitleWrite)]
    [(false, PStep.synthEnd), (false, PStep.audioEnqueue), (false, PStep.setLastTime),
      (false, PStep.lockRelease), (true, PStep.lockAcquire)]
    [(true, PStep.apiCall), (true, PStep.subtitleWrite), (true, PStep.synthStart),
      (true, PStep.synthEnd), (true, PStep.audioEnqueue), (true, PStep.setLastTime),
      (true, PStep.lockRelease)]
    false true ⟨by decide, by decide, by decide⟩ (by decide) (by decide)
